import Mathlib

/-!
# A shallow embedding of the `logic_puzzle` constraint-propagation solver

This file models, in Lean, the data structures and operations of the
logic-grid puzzle solver found in `logic_puzzle.py`:

* the `LogicPuzzle` class (possibility graph, answer map, category table),
* the primitive mutators `mark_false` and `mark_true`,
* the query layer (`neighbors`, `neighbors_by_type`, `count_edges_per_type`,
  `_has_one_edge`, `_category`),
* the structural forced-assignment pass (`_reduce_graph` and `_share_info`),
* the inference-rule library (`either_or`, `neither_nor`, `pairs`,
  `mutually_exclusive`, `delta_comparison`, and `Comparison.__call__`),
* the fixed-point engine `execute_rules`, and
* the constructor `LogicPuzzle.__init__`.

Items are modelled as integers (Python item identifiers; items of the
ordinal category are numbers supporting `<`, `+`, `-`), category names
as naturals.  The networkx undirected graph is modelled as a list of
unordered edges; `nx.Graph.add_edge` deduplicates, and `remove_edge`
raises if the edge is absent, which `mark_false` catches and turns into
a `false` return.  Python dictionaries are modelled as association
lists with first-occurrence lookup and replace-or-append update,
matching `dict` insertion-order semantics.

Fallible operations return `Except Err _`.  Python `assert` failures
are mapped to the error taxonomy of the specification: an unknown-item
or self-category precondition becomes `Err.invariantViolation`, the
zero-degree assert in `_has_one_edge` becomes `Err.contradiction`,
failed construction asserts become `Err.configurationError`; a
`KeyError` from a dict subscript becomes `Err.keyError` and a
`ValueError` from `min`/`max` of an empty sequence becomes
`Err.valueError`.

The class `DeltaComparison.__call__` in the source is syntactically
invalid (a stray `@@@ Fix this` line and references to undefined
variables `p`, `numeric`, `delta`); it is not modelled.  The
free-function `delta_comparison` is modelled in full.
-/

namespace LogicPuzzleModel

abbrev Item := Int
abbrev Cat := Nat

/-- The error taxonomy of the specification, covering the ways the Python
code can raise: `assert` failures at construction (`configurationError`),
`assert` failures on unknown items / self-category queries
(`invariantViolation`), the zero-degree `assert` in `_has_one_edge`
(`contradiction`), dict-subscript `KeyError`s (`keyError`) and
`min`/`max`-of-empty `ValueError`s (`valueError`). -/
inductive Err where
  | configurationError
  | invariantViolation
  | contradiction
  | keyError
  | valueError
deriving DecidableEq, Repr

/-- Association-list lookup, first occurrence wins: Python `d[k]` made total. -/
def alookup {α β : Type} [DecidableEq α] : List (α × β) → α → Option β
  | [], _ => none
  | kv :: rest, a => if kv.1 = a then some kv.2 else alookup rest a

/-- Association-list update: Python `d[k] = v` (replace first occurrence,
else append, preserving insertion order). -/
def aupdate {α β : Type} [DecidableEq α] : List (α × β) → α → β → List (α × β)
  | [], a, b => [(a, b)]
  | kv :: rest, a, b => if kv.1 = a then (a, b) :: rest else kv :: aupdate rest a b

/-- A conditional fallible computation (`if c then A else B` packaged as an
application, so that monadic reasoning stays syntax-directed). -/
def iteE {α : Type} (c : Prop) [Decidable c] (A B : Except Err α) : Except Err α :=
  if c then A else B

/-- Python dict subscripting made fallible: `some` succeeds, `none` raises. -/
def fromOpt {α : Type} (o : Option α) (e : Err) : Except Err α :=
  match o with
  | none => .error e
  | some x => .ok x

/-- The mutable state of a `LogicPuzzle` object: `_items` (category name to
ordered item list), `_ordinal`, `_answers` (item to per-category answer,
`none` being Python `None`), and the edge list of the possibility graph
`_G`.  `_all_items` is derived (`all_items` below) since `_items` is never
mutated after construction. -/
structure Puzzle where
  items : List (Cat × List Item)
  ordinal : Cat
  answers : List (Item × List (Cat × Option Item))
  edges : List (Item × Item)
deriving DecidableEq, Repr

/-- `self._all_items`: concatenation of all category item lists. -/
def all_items (p : Puzzle) : List Item := (p.items.map Prod.snd).flatten

/-- Whether a stored (unordered) edge connects `a` and `b`. -/
def sameEdge (e : Item × Item) (a b : Item) : Bool :=
  (e.1 == a && e.2 == b) || (e.1 == b && e.2 == a)

/-- `self._G.has_edge(a, b)`. -/
def hasEdge (p : Puzzle) (a b : Item) : Bool := p.edges.any (fun e => sameEdge e a b)

/-- `self._G.number_of_edges()`, the `edge_count` property. -/
def edge_count (p : Puzzle) : Nat := p.edges.length

/-- `LogicPuzzle._category`: the first category whose item list contains
`node`, `none` if the item is unknown. -/
def category (p : Puzzle) (node : Item) : Option Cat :=
  (p.items.find? (fun kv => kv.2.contains node)).map Prod.fst

/-- `LogicPuzzle.mark_false`: asserts both nodes are known items
(`InvariantViolation` otherwise), removes the edge if present and returns
`true`, or returns `false` leaving the graph unchanged (the caught
`nx.NetworkXError`). -/
def mark_false (p : Puzzle) (node1 node2 : Item) : Except Err (Bool × Puzzle) :=
  if node1 ∈ all_items p then
    if node2 ∈ all_items p then
      if hasEdge p node1 node2 then
        .ok (true, { p with edges := p.edges.filter (fun e => !sameEdge e node1 node2) })
      else
        .ok (false, p)
    else .error .invariantViolation
  else .error .invariantViolation

/-- `mark_false` with the returned Bool discarded, as rule code uses it. -/
def mfd (p : Puzzle) (a b : Item) : Except Err Puzzle := (mark_false p a b).map Prod.snd

/-- `self._items[cat]` (Python `KeyError` when absent). -/
def getItems (p : Puzzle) (cat : Cat) : Except Err (List Item) :=
  match alookup p.items cat with
  | none => .error .keyError
  | some its => .ok its

/-- `self._category(node)` where the caller immediately subscripts with the
result, so a `None` category surfaces as a `KeyError`. -/
def getCat (p : Puzzle) (node : Item) : Except Err Cat :=
  match category p node with
  | none => .error .keyError
  | some c => .ok c

/-- `LogicPuzzle.neighbors(node, category)`: asserts `node` is not itself in
`self._items[category]`, then filters that category's items by adjacency.
An unknown category is a `KeyError` (from `self._items[category]`); an
unknown node is the `KeyError` of `self._G.adj[node]`. -/
def neighbors (p : Puzzle) (node : Item) (cat : Cat) : Except Err (List Item) :=
  match alookup p.items cat with
  | none => .error .keyError
  | some its =>
    if node ∈ its then .error .invariantViolation
    else if node ∈ all_items p then .ok (its.filter (fun x => hasEdge p node x))
    else .error .keyError

/-- `LogicPuzzle.neighbors(node)` without a category: all surviving
neighbors of `node`. -/
def neighbors_all (p : Puzzle) (node : Item) : Except Err (List Item) :=
  if node ∈ all_items p then .ok ((all_items p).filter (fun x => hasEdge p node x))
  else .error .keyError

/-- The category keys other than `tc`, in `self._items` order. -/
def other_cats (p : Puzzle) (tc : Cat) : List Cat :=
  (p.items.map Prod.fst).filter (fun c => c ≠ tc)

/-- `LogicPuzzle.neighbors_by_type`: neighbors partitioned by category,
excluding the node's own category. -/
def neighbors_by_type (p : Puzzle) (node : Item) : Except Err (List (Cat × List Item)) :=
  match category p node with
  | none => .error .keyError
  | some tc => (other_cats p tc).mapM (fun c => (neighbors p node c).map (fun l => (c, l)))

/-- `LogicPuzzle.count_edges_per_type`. -/
def count_edges_per_type (p : Puzzle) (node : Item) : Except Err (List (Cat × Nat)) :=
  (neighbors_by_type p node).map (fun l => l.map (fun kv => (kv.1, kv.2.length)))

/-- `LogicPuzzle._has_one_edge`: the `assert count[category] != 0` failure is
the `Contradiction` of the specification. -/
def has_one_edge (p : Puzzle) (node : Item) (cat : Cat) : Except Err Bool := do
  let counts ← count_edges_per_type p node
  match alookup counts cat with
  | none => .error .keyError
  | some c => if c = 0 then .error .contradiction else .ok (c == 1)

/-- Read an Answer Map entry: `self._answers[node][cat]`, flattened so that a
missing key and a stored `None` both read as `none` (the unresolved
marker). -/
def get_answer (p : Puzzle) (node : Item) (cat : Cat) : Option Item :=
  match alookup p.answers node with
  | none => none
  | some inner =>
    match alookup inner cat with
    | none => none
    | some v => v

/-- One entry of the answers table after `self._answers[node][cat] = val`. -/
def upd_entry (node : Item) (cat : Cat) (val : Item)
    (kv : Item × List (Cat × Option Item)) : Item × List (Cat × Option Item) :=
  if kv.1 = node then (kv.1, aupdate kv.2 cat (some val)) else kv

/-- The answers table after `self._answers[node][cat] = val`. -/
def upd_ans (ans : List (Item × List (Cat × Option Item))) (node : Item) (cat : Cat)
    (val : Item) : List (Item × List (Cat × Option Item)) :=
  ans.map (upd_entry node cat val)

/-- `self._answers[node][cat] = val`: `KeyError` if `node` is not a key of
`_answers`. -/
def set_answer (p : Puzzle) (node : Item) (cat : Cat) (val : Item) : Except Err Puzzle :=
  if (alookup p.answers node).isSome then
    .ok { p with answers := upd_ans p.answers node cat val }
  else .error .keyError

/-- `LogicPuzzle.mark_true`: eliminate from `node2` every competitor of
`node1` in `node1`'s category and vice versa, then record both Answer Map
entries. -/
def mark_true (p : Puzzle) (node1 node2 : Item) : Except Err Puzzle := do
  let type1 ← getCat p node1
  let type2 ← getCat p node2
  let its1 ← getItems p type1
  let its2 ← getItems p type2
  let not_node1 := its1.filter (fun x => x ≠ node1)
  let q1 ← not_node1.foldlM (fun q n => mfd q n node2) p
  let not_node2 := its2.filter (fun x => x ≠ node2)
  let q2 ← not_node2.foldlM (fun q n => mfd q n node1) q1
  let q3 ← set_answer q2 node1 type2 node2
  set_answer q3 node2 type1 node1

/-- Python `set(l1).symmetric_difference(l2)`: elements of exactly one side. -/
def symmDiff (l1 l2 : List Item) : List Item :=
  l1.filter (fun x => !l2.contains x) ++ l2.filter (fun x => !l1.contains x)

/-- The body of the `_share_info` loop over categories: at category `t`,
eliminate the symmetric difference of the two nodes' neighbor sets from
whichever node is not in that category. -/
def share_body (node1 node2 : Item) (t1 t2 : Cat) (q : Puzzle)
    (kv : Cat × List Item) : Except Err Puzzle := do
  let t := kv.1
  let uniq ← iteE (t = t1)
    (do
      let n2 ← neighbors q node2 t
      pure (symmDiff [node1] n2))
    (iteE (t = t2)
      (do
        let n1 ← neighbors q node1 t
        pure (symmDiff n1 [node2]))
      (do
        let n1 ← neighbors q node1 t
        let n2 ← neighbors q node2 t
        pure (symmDiff n1 n2)))
  uniq.foldlM (fun r v => do
    let r2 ← iteE (t ≠ t1) (mfd r node1 v) (pure r)
    if t ≠ t2 then mfd r2 node2 v else pure r2) q

/-- `LogicPuzzle._share_info`. -/
def share_info (p : Puzzle) (node1 node2 : Item) : Except Err Puzzle := do
  let t1 ← getCat p node1
  let t2 ← getCat p node2
  p.items.foldlM (share_body node1 node2 t1 t2) p

/-- The `(t, v, ot)` triples visited by `_reduce_graph`, in source order:
every item `v` of every category `t` against every other category `ot`.
`_items` is immutable during a solve, so the list is fixed up front. -/
def reduce_triples (p : Puzzle) : List (Cat × Item × Cat) :=
  p.items.flatMap (fun tv =>
    tv.2.flatMap (fun v =>
      ((p.items.map Prod.fst).filter (fun ot => ot ≠ tv.1)).map (fun ot => (tv.1, v, ot))))

/-- One iteration of the `_reduce_graph` loop body at triple `(t, v, ot)`:
if `v` has exactly one surviving `ot` neighbor, force the assignment
(`mark_true` then `_share_info`). -/
def reduce_step (p : Puzzle) (x : Cat × Item × Cat) : Except Err Puzzle := do
  let t := x.1
  let v := x.2.1
  let ot := x.2.2
  let one ← has_one_edge p v ot
  if one then do
    let ns ← neighbors p v ot
    match ns with
    | [] => .error .invariantViolation
    | n2 :: _ => do
      let its_t ← getItems p t
      let its_ot ← getItems p ot
      if v ∈ its_t then
        if n2 ∈ its_ot then do
          let q ← mark_true p v n2
          share_info q v n2
        else .error .invariantViolation
      else .error .invariantViolation
  else .ok p

/-- `LogicPuzzle._reduce_graph`: the structural forced-assignment pass. -/
def reduce_graph (p : Puzzle) : Except Err Puzzle :=
  (reduce_triples p).foldlM reduce_step p

/-- The rule `neither_nor(puzzle, obj, (p1, p2))`. -/
def neither_nor (p : Puzzle) (obj p1 p2 : Item) : Except Err Puzzle := do
  let q1 ← mfd p obj p1
  let q2 ← mfd q1 obj p2
  mfd q2 p1 p2

/-- The nested `transitive_true_propagation(pair_item, other_category,
other_item)` of `either_or` (closing over `obj` and the current state). -/
def ttp (p : Puzzle) (obj pair_item : Item) (other_category : Cat) (other_item : Item) :
    Except Err Puzzle := do
  let tn ← neighbors_by_type p pair_item
  let l ← fromOpt (alookup tn other_category) Err.keyError
  match l with
  | [w] => do
    let its ← getItems p other_category
    let elim := symmDiff its [other_item, w]
    elim.foldlM (fun q z => mfd q obj z) p
  | _ => pure p

/-- The rule `either_or(puzzle, obj, (p1, p2))`.  All `obj_adj`, `p1_adj`,
`p2_adj` neighbor tables are snapshots taken at entry, exactly as in the
source.  Note the guard of the second same-category-commitment branch
tests `p1 ∈ objP2` — the source really tests `p1 in obj_p2_type_neighbors`
(line 333) although its comment says "is p2". -/
def either_or (p : Puzzle) (obj p1 p2 : Item) : Except Err Puzzle := do
  let obj_adj ← neighbors_by_type p obj
  let obj_type ← getCat p obj
  let p1_adj ← neighbors_by_type p p1
  let p1_type ← getCat p p1
  let p2_adj ← neighbors_by_type p p2
  let p2_type ← getCat p p2
  let q0 ← mfd p p1 p2
  let objP1 ← fromOpt (alookup obj_adj p1_type) Err.keyError
  let q1 ← iteE (p1 ∉ objP1) (mark_true q0 obj p2) (pure q0)
  let objP2 ← fromOpt (alookup obj_adj p2_type) Err.keyError
  let q2 ← iteE (p2 ∉ objP2) (mark_true q1 obj p1) (pure q1)
  let q3 ← iteE (p1_type ≠ p2_type)
    (do
      let r1 ← iteE (objP1.length = 1 ∧ p1 ∈ objP1) (mfd q2 obj p2) (pure q2)
      iteE (objP2.length = 1 ∧ p1 ∈ objP2) (mfd r1 obj p1) (pure r1))
    (pure q2)
  let p1n ← fromOpt (alookup p1_adj obj_type) Err.keyError
  let q4 ← iteE (p1n.length = 1 ∧ obj ∉ p1n) (mark_true q3 obj p2) (pure q3)
  let p2n ← fromOpt (alookup p2_adj obj_type) Err.keyError
  let q5 ← iteE (p2n.length = 1 ∧ obj ∉ p2n) (mark_true q4 obj p1) (pure q4)
  if p1_type ≠ p2_type then do
    let q6 ← ttp q5 obj p1 p2_type p2
    ttp q6 obj p2 p1_type p1
  else pure q5

/-- The nested `pair_same_type_logic(pair, p_type, other_pair)` of `pairs`. -/
def pstl_body (c d : Item) (q : Puzzle) (o : Item) : Except Err Puzzle := do
  let _ ← neighbors_all q o
  let nc ← neighbors_all q c
  let q1 ← iteE (o ∈ nc) (mfd q o c) (pure q)
  let nd ← neighbors_all q1 d
  if o ∈ nd then mfd q1 o d else pure q1

/-- `pair_same_type_logic` proper: eliminate the other pair's items from
every same-typed competitor of the pair. -/
def pair_same_type_logic (p : Puzzle) (x y : Item) (ptype : Cat) (c d : Item) :
    Except Err Puzzle := do
  let its ← getItems p ptype
  let others := symmDiff [x, y] its
  others.foldlM (pstl_body c d) p

/-- The rule `pairs(puzzle, (a, b), (c, d))`. -/
def pairs_rule (p : Puzzle) (a b c d : Item) : Except Err Puzzle := do
  let q1 ← mfd p a b
  let q2 ← mfd q1 c d
  let q3 ← either_or q2 a c d
  let q4 ← either_or q3 b c d
  let q5 ← either_or q4 c a b
  let q6 ← either_or q5 d a b
  let p1a_type ← getCat q6 a
  let p1b_type ← getCat q6 b
  let q7 ← iteE (p1a_type = p1b_type) (pair_same_type_logic q6 a b p1a_type c d) (pure q6)
  let p2c_type ← getCat q7 c
  let p2d_type ← getCat q7 d
  if p2c_type = p2d_type then pair_same_type_logic q7 c d p2c_type a b else pure q7

/-- `itertools.combinations(l, 2)` in source order. -/
def combos2 : List Item → List (Item × Item)
  | [] => []
  | x :: xs => xs.map (fun y => (x, y)) ++ combos2 xs

/-- The rule `mutually_exclusive(puzzle, list_of_things)`. -/
def mutually_exclusive (p : Puzzle) (things : List Item) : Except Err Puzzle :=
  (combos2 things).foldlM (fun q pr => mfd q pr.1 pr.2) p

/-- Python `min(l)` (`ValueError` on an empty sequence). -/
def listMin : List Item → Except Err Item
  | [] => .error .valueError
  | x :: xs => .ok (xs.foldl min x)

/-- Python `max(l)` (`ValueError` on an empty sequence). -/
def listMax : List Item → Except Err Item
  | [] => .error .valueError
  | x :: xs => .ok (xs.foldl max x)

/-- The body of the `for p in numeric` loop of `delta_comparison`, at
candidate value `pv`.  Every `cat_neighbors(...)` read is recomputed
against the current state, as in the source; the `min`/`max` reads inside
the `logger.debug` f-strings are evaluated eagerly by Python and so are
kept (they can raise `ValueError`). -/
def delta_body (lesser greater : Item) (delta : Int) (cat : Cat) (numeric : List Item)
    (q : Puzzle) (pv : Item) : Except Err Puzzle := do
  let ppd := pv + delta
  let pmd := pv - delta
  let nl0 ← neighbors q lesser cat
  let _ ← listMin nl0
  let ng0 ← neighbors q greater cat
  let _ ← listMax ng0
  let r1 ← iteE (pv ∉ nl0 ∧ ppd ∈ numeric) (mfd q greater ppd) (pure q)
  let ng1 ← neighbors r1 greater cat
  let r2 ← iteE (pv ∉ ng1 ∧ pmd ∈ numeric) (mfd r1 lesser pmd) (pure r1)
  let nl2 ← neighbors r2 lesser cat
  let mnl ← listMin nl2
  let r3 ← iteE (pv < mnl + delta) (mfd r2 greater pv) (pure r2)
  let ng3 ← neighbors r3 greater cat
  let mxg ← listMax ng3
  let r4 ← iteE (pv > mxg - delta) (mfd r3 lesser pv) (pure r3)
  if delta > 0 then do
    let nl4 ← neighbors r4 lesser cat
    let r5 ← iteE (pmd ∈ numeric ∧ pmd ∉ nl4) (mfd r4 greater pv) (pure r4)
    let ng5 ← neighbors r5 greater cat
    if ppd ∈ numeric ∧ ppd ∉ ng5 then mfd r5 lesser pv else pure r5
  else pure r4

/-- The rule `delta_comparison(puzzle, lesser, greater, delta, category)`. -/
def delta_comparison (p : Puzzle) (lesser greater : Item) (delta : Int) (cat : Cat) :
    Except Err Puzzle := do
  if delta < 0 then Except.error Err.invariantViolation else do
  let q0 ← mfd p lesser greater
  let numeric ← getItems q0 cat
  let mn ← listMin numeric
  let mx ← listMax numeric
  let q1 ← mfd q0 greater mn
  let q2 ← mfd q1 lesser mx
  numeric.foldlM (delta_body lesser greater delta cat numeric) q2

/-- The body of the `for o in ordinals` loop of `Comparison.__call__`. -/
def comparison_body (greater lesser : Item) (q : Puzzle) (o : Item) :
    Except Err Puzzle := do
  let nl ← neighbors q lesser q.ordinal
  let mnl ← listMin nl
  let r1 ← iteE (o ≤ mnl) (mfd q greater o) (pure q)
  let ng ← neighbors r1 greater r1.ordinal
  let mxg ← listMax ng
  if o ≥ mxg then mfd r1 lesser o else pure r1

/-- `Comparison.__call__(puzzle)`: the ordinal less-than rule. -/
def comparison_call (p : Puzzle) (greater lesser : Item) : Except Err Puzzle := do
  let q0 ← mfd p lesser greater
  let ordinals ← getItems q0 q0.ordinal
  let mn ← listMin ordinals
  let mx ← listMax ordinals
  let q1 ← mfd q0 greater mn
  let q2 ← mfd q1 lesser mx
  ordinals.foldlM (comparison_body greater lesser) q2

/-- The mutating operations of the engine, as registrable data: the two
primitive mutators, each rule of the library (rules capture their item
identifiers at registration time), and the structural reduce pass. -/
inductive Op where
  | opMarkFalse (a b : Item)
  | opMarkTrue (a b : Item)
  | opNeitherNor (obj p1 p2 : Item)
  | opEitherOr (obj p1 p2 : Item)
  | opPairs (a b c d : Item)
  | opMutEx (things : List Item)
  | opDelta (lesser greater : Item) (delta : Int) (cat : Cat)
  | opComparison (greater lesser : Item)
  | opReduce
deriving DecidableEq, Repr

/-- Invoke one operation on the puzzle state. -/
def apply_op (p : Puzzle) : Op → Except Err Puzzle
  | .opMarkFalse a b => mfd p a b
  | .opMarkTrue a b => mark_true p a b
  | .opNeitherNor obj p1 p2 => neither_nor p obj p1 p2
  | .opEitherOr obj p1 p2 => either_or p obj p1 p2
  | .opPairs a b c d => pairs_rule p a b c d
  | .opMutEx l => mutually_exclusive p l
  | .opDelta l g d c => delta_comparison p l g d c
  | .opComparison g l => comparison_call p g l
  | .opReduce => reduce_graph p

/-- A sequence of mutating operations, applied left to right. -/
def apply_ops (p : Puzzle) (ops : List Op) : Except Err Puzzle :=
  ops.foldlM apply_op p

/-- One round of `execute_rules`: every registered rule in registration
order, then the structural pass. -/
def run_round (rules : List Op) (p : Puzzle) : Except Err Puzzle := do
  let q ← apply_ops p rules
  reduce_graph q

/-- The `while current_edge_count > self.edge_count` loop of
`execute_rules`, together with the number of rounds executed.  The loop
repeats only while a full round strictly decreased the edge count, which
is exactly the termination measure. -/
def exec_loop (rules : List Op) (p : Puzzle) : Except Err Puzzle × Nat :=
  match run_round rules p with
  | .error e => (.error e, 1)
  | .ok q =>
    if h : edge_count q < edge_count p then
      let r := exec_loop rules q
      (r.1, r.2 + 1)
    else (.ok q, 1)
termination_by edge_count p
decreasing_by exact h

/-- `LogicPuzzle.execute_rules`: the initial sentinel is `1e9`, so the loop
body runs only when the current edge count is below `10 ^ 9`. -/
def execute_rules (rules : List Op) (p : Puzzle) : Except Err Puzzle × Nat :=
  if edge_count p < 1000000000 then exec_loop rules p else (.ok p, 0)

/-- `nx.Graph.add_edge`: a new edge is appended only if not already present. -/
def add_edge_l (es : List (Item × Item)) (a b : Item) : List (Item × Item) :=
  if es.any (fun e => sameEdge e a b) then es else es ++ [(a, b)]

/-- The pairs `(n1, n2)` produced by the constructor's double loop over
category lists with `i < j`, in `itertools.product` order. -/
def ordered_pairs : List (List Item) → List (Item × Item)
  | [] => []
  | l :: rest =>
      (rest.flatMap (fun l2 => l.flatMap (fun n1 => l2.map (fun n2 => (n1, n2)))))
        ++ ordered_pairs rest

/-- The constructor's initial edge set. -/
def init_edges (lists : List (List Item)) : List (Item × Item) :=
  (ordered_pairs lists).foldl (fun es pr => add_edge_l es pr.1 pr.2) []

/-- The constructor's initial `_answers` table: for every item, a map from
every other category name to `None`.  Duplicate item identifiers
overwrite, as Python dict assignment does. -/
def init_answers (categories : List (Cat × List Item)) :
    List (Item × List (Cat × Option Item)) :=
  categories.foldl (fun ans kv =>
    kv.2.foldl (fun ans2 it =>
      aupdate ans2 it (((categories.map Prod.fst).filter (fun c => c ≠ kv.1)).map
        (fun c => (c, (none : Option Item))))) ans) []

/-- `LogicPuzzle.__init__`: asserts all categories have one common size
(`len(set(lengths)) == 1`) and that the ordinal category is a known key,
then builds the complete inter-category graph.  Construction asserts
map to `ConfigurationError`. -/
def construct (categories : List (Cat × List Item)) (ordinal_category : Cat) :
    Except Err Puzzle :=
  if ((categories.map (fun kv => kv.2.length)).dedup).length = 1 then
    if ordinal_category ∈ categories.map Prod.fst then
      .ok { items := categories
            ordinal := ordinal_category
            answers := init_answers categories
            edges := init_edges (categories.map Prod.snd) }
    else .error .configurationError
  else .error .configurationError

/-- The construction invariant that `_answers` has an entry for every known
item; `__init__` establishes it and no operation removes keys. -/
def answers_complete (p : Puzzle) : Bool :=
  (all_items p).all (fun it => (alookup p.answers it).isSome)

/-- Answer Map monotonicity: every entry already set to a definite item
stays set.  (No operation of the engine ever writes the unresolved marker
after construction.) -/
def AnswerMono (p q : Puzzle) : Prop :=
  ∀ it c, (get_answer p it c).isSome = true → (get_answer q it c).isSome = true

/-- The state-evolution invariant every mutating operation preserves:
categories and the ordinal designation are immutable, the edge list only
loses entries (it stays a sublist — no operation ever adds an edge), set
Answer Map entries stay set, and the answer table keeps its keys. -/
def Evolves (p q : Puzzle) : Prop :=
  q.items = p.items ∧ q.ordinal = p.ordinal ∧ q.edges.Sublist p.edges ∧ AnswerMono p q ∧
    ∀ k, (alookup q.answers k).isSome = (alookup p.answers k).isSome

/-- The closed form of a successful `mark_true p a b` where `a` has category
`t1` with item list `its1` and `b` has category `t2` with item list `its2`:
all edges from competitors of `a` to `b` and from competitors of `b` to `a`
are filtered out, and both Answer Map entries are written. -/
def mt_result (p : Puzzle) (a b : Item) (t1 t2 : Cat) (its1 its2 : List Item) : Puzzle :=
  { p with
    edges := (p.edges.filter
        (fun e => !(its1.filter (fun x => x ≠ a)).any (fun n => sameEdge e n b))).filter
      (fun e => !(its2.filter (fun x => x ≠ b)).any (fun n => sameEdge e n a))
    answers := upd_ans (upd_ans p.answers a t2 b) b t1 a }

/-- A sample 2-by-2 category table: categories `0 = {1, 2}`, `1 = {11, 12}`. -/
def C22 : List (Cat × List Item) := [(0, [1, 2]), (1, [11, 12])]

/-- The freshly constructed 2-by-2 puzzle. -/
def P22 : Puzzle :=
  { items := C22, ordinal := 0, answers := init_answers C22
    edges := init_edges (C22.map Prod.snd) }

/-- `P22` after `mark_true 1 11`. -/
def Q22 : Puzzle :=
  { items := C22, ordinal := 0
    answers := [(1, [(1, some 11)]), (2, [(1, none)]), (11, [(0, some 1)]), (12, [(0, none)])]
    edges := [(1, 11), (2, 12)] }

/-- `P22` with the edge between `1` and `11` already removed. -/
def P22e : Puzzle :=
  { items := C22, ordinal := 0, answers := init_answers C22
    edges := [(1, 12), (2, 11), (2, 12)] }

/-- `P22` driven into a contradictory state: item `1` has no surviving
neighbor in category `1`. -/
def PC : Puzzle :=
  { items := C22, ordinal := 0, answers := init_answers C22
    edges := [(2, 11), (2, 12)] }

/-- `P22` after the operation sequence `mark_true 1 11` then the structural
reduce pass: fully solved. -/
def QW : Puzzle :=
  { items := C22, ordinal := 0
    answers := [(1, [(1, some 11)]), (2, [(1, some 12)]), (11, [(0, some 1)]), (12, [(0, some 2)])]
    edges := [(1, 11), (2, 12)] }

/-- A sample 3-by-3 category table with a numeric category `0 = {1, 2, 3}`
and a second category `1 = {11, 12, 13}`. -/
def C33 : List (Cat × List Item) := [(0, [1, 2, 3]), (1, [11, 12, 13])]

/-- The freshly constructed 3-by-3 puzzle. -/
def P33 : Puzzle :=
  { items := C33, ordinal := 0, answers := init_answers C33
    edges := init_edges (C33.map Prod.snd) }

/-- `P33` after `delta_comparison 11 12 0 0`. -/
def Q33 : Puzzle :=
  { items := C33, ordinal := 0, answers := init_answers C33
    edges := [(1, 13), (2, 11), (2, 12), (2, 13), (3, 13)] }

/-! ## Inversion and association-list lemmas -/

theorem bindE {α β : Type} {x : Except Err α} {f : α → Except Err β} {b : β}
    (h : (x >>= f) = .ok b) : ∃ a, x = .ok a ∧ f a = .ok b := by
  cases x with
  | error e => simp [Bind.bind, Except.bind] at h
  | ok a => exact ⟨a, rfl, by simpa [Bind.bind, Except.bind] using h⟩

theorem pureE {α : Type} {x y : α} (h : (pure x : Except Err α) = .ok y) : x = y := by
  simpa [pure, Except.pure] using h

theorem mapE {α β : Type} {x : Except Err α} {f : α → β} {b : β}
    (h : x.map f = .ok b) : ∃ a, x = .ok a ∧ f a = b := by
  cases x with
  | error e => simp [Except.map] at h
  | ok a => exact ⟨a, rfl, by simpa [Except.map] using h⟩

theorem alookup_mem {α β : Type} [DecidableEq α] {l : List (α × β)} {k : α} {v : β}
    (h : alookup l k = some v) : (k, v) ∈ l := by
  induction l with
  | nil => simp [alookup] at h
  | cons kv rest ih =>
    obtain ⟨k1, v1⟩ := kv
    rw [alookup] at h
    by_cases hk : k1 = k
    · subst hk
      rw [if_pos rfl] at h
      injection h with h2
      subst h2
      exact List.mem_cons_self _ _
    · rw [if_neg hk] at h
      exact List.mem_cons_of_mem _ (ih h)

theorem alookup_isSome_of_mem {α β : Type} [DecidableEq α] {l : List (α × β)} {kv : α × β}
    (h : kv ∈ l) : (alookup l kv.1).isSome = true := by
  induction l with
  | nil => simp at h
  | cons kv2 rest ih =>
    rw [alookup]
    split
    · simp
    · rename_i hk
      rcases List.mem_cons.mp h with rfl | hmem
      · simp at hk
      · exact ih hmem

theorem aupdate_alookup {α β : Type} [DecidableEq α] (l : List (α × β)) (k : α) (v : β)
    (k2 : α) : alookup (aupdate l k v) k2 = if k2 = k then some v else alookup l k2 := by
  induction l with
  | nil =>
    by_cases h : k2 = k
    · simp [aupdate, alookup, h]
    · have h2 : ¬k = k2 := fun hc => h hc.symm
      simp [aupdate, alookup, h, h2]
  | cons kv rest ih =>
    obtain ⟨ka, va⟩ := kv
    by_cases hka : ka = k <;> by_cases h2 : k2 = k <;> by_cases h3 : k2 = ka <;>
      simp_all [aupdate, alookup, eq_comm]

theorem aupdate_aupdate {α β : Type} [DecidableEq α] (l : List (α × β)) (k : α) (v : β) :
    aupdate (aupdate l k v) k v = aupdate l k v := by
  induction l with
  | nil => simp [aupdate]
  | cons kv rest ih =>
    rw [aupdate]
    split
    · simp [aupdate]
    · rename_i hk
      rw [aupdate, if_neg hk, ih]

theorem upd_entry_fst (n : Item) (c : Cat) (v : Item) (kv : Item × List (Cat × Option Item)) :
    (upd_entry n c v kv).1 = kv.1 := by
  rw [upd_entry]; split <;> rfl

theorem alookup_upd_ans (ans : List (Item × List (Cat × Option Item))) (n : Item) (c : Cat)
    (v : Item) (k : Item) :
    alookup (upd_ans ans n c v) k =
      if k = n then (alookup ans n).map (fun inner => aupdate inner c (some v))
      else alookup ans k := by
  induction ans with
  | nil => by_cases h : k = n <;> simp [upd_ans, alookup, h]
  | cons kv rest ih =>
    obtain ⟨ka, va⟩ := kv
    by_cases hka : ka = k <;> by_cases hn : k = n <;> by_cases hkan : ka = n <;>
      simp_all [upd_ans, upd_entry, alookup, eq_comm]

theorem upd_ans_isSome (ans : List (Item × List (Cat × Option Item))) (n : Item) (c : Cat)
    (v : Item) (k : Item) :
    (alookup (upd_ans ans n c v) k).isSome = (alookup ans k).isSome := by
  rw [alookup_upd_ans]
  split
  · rename_i h
    subst h
    cases alookup ans k <;> rfl
  · rfl

/-! ## Characterizing `mark_false` -/

theorem mfd_ok_eq {p q : Puzzle} {a b : Item} (h : mfd p a b = .ok q) :
    q = { p with edges := p.edges.filter (fun e => !sameEdge e a b) } := by
  rw [mfd, mark_false] at h
  split at h
  · split at h
    · split at h
      · simp only [Except.map] at h
        exact (Except.ok.injEq _ _).mp h.symm
      · rename_i hE
        simp only [Except.map] at h
        have hq : q = p := (Except.ok.injEq _ _).mp h.symm
        have hfix : p.edges.filter (fun e => !sameEdge e a b) = p.edges :=
          List.filter_eq_self.mpr (fun e he => by
            have := List.any_eq_false.mp (Bool.not_eq_true _ ▸ hE) e he
            simp [this])
        rw [hq, hfix]
    · exact Except.noConfusion h
  · exact Except.noConfusion h

theorem mfd_ok_mem {p q : Puzzle} {a b : Item} (h : mfd p a b = .ok q) :
    a ∈ all_items p ∧ b ∈ all_items p := by
  rw [mfd, mark_false] at h
  split at h
  · split at h
    · exact ⟨by assumption, by assumption⟩
    · exact Except.noConfusion h
  · exact Except.noConfusion h

theorem hasEdge_filter_absent (p : Puzzle) (a b : Item) :
    hasEdge { p with edges := p.edges.filter (fun e => !sameEdge e a b) } a b = false := by
  rw [hasEdge]
  simp only [List.any_eq_false]
  intro e he hc
  have h2 := (List.mem_filter.mp he).2
  rw [hc] at h2
  simp at h2

theorem mfd_ok_absent {p q : Puzzle} {a b : Item} (h : mfd p a b = .ok q) :
    hasEdge q a b = false := by
  rw [mfd_ok_eq h]
  exact hasEdge_filter_absent p a b

theorem mfd_known {p : Puzzle} {a b : Item} (h1 : a ∈ all_items p) (h2 : b ∈ all_items p) :
    mfd p a b = .ok { p with edges := p.edges.filter (fun e => !sameEdge e a b) } := by
  rw [mfd, mark_false, if_pos h1, if_pos h2]
  split
  · rfl
  · rename_i hE
    have hfix : p.edges.filter (fun e => !sameEdge e a b) = p.edges :=
      List.filter_eq_self.mpr (fun e he => by
        have := List.any_eq_false.mp (Bool.not_eq_true _ ▸ hE) e he
        simp [this])
    rw [hfix]
    rfl

/-! ## The `Evolves` invariant -/

theorem evolves_refl (p : Puzzle) : Evolves p p :=
  ⟨rfl, rfl, List.Sublist.refl _, fun _ _ h => h, fun _ => rfl⟩

theorem evolves_trans {p q r : Puzzle} (h1 : Evolves p q) (h2 : Evolves q r) : Evolves p r :=
  ⟨h2.1.trans h1.1, h2.2.1.trans h1.2.1, h2.2.2.1.trans h1.2.2.1,
    fun it c h => h2.2.2.2.1 it c (h1.2.2.2.1 it c h),
    fun k => (h2.2.2.2.2 k).trans (h1.2.2.2.2 k)⟩

theorem evolves_edge_count {p q : Puzzle} (h : Evolves p q) : edge_count q ≤ edge_count p :=
  h.2.2.1.length_le

theorem evolves_absent {p q : Puzzle} (h : Evolves p q) {u v : Item}
    (ha : hasEdge p u v = false) : hasEdge q u v = false := by
  rw [hasEdge, List.any_eq_false]
  intro e he
  have hep := h.2.2.1.subset he
  exact fun hc => by
    have := List.any_eq_false.mp ha e hep
    exact this hc

theorem evolves_all_items {p q : Puzzle} (h : Evolves p q) : all_items q = all_items p := by
  rw [all_items, all_items, h.1]

theorem mfd_evolves {p q : Puzzle} {a b : Item} (h : mfd p a b = .ok q) : Evolves p q := by
  obtain rfl := mfd_ok_eq h
  exact ⟨rfl, rfl, List.filter_sublist _, fun _ _ h => h, fun _ => rfl⟩

theorem set_answer_evolves {p q : Puzzle} {n : Item} {c : Cat} {v : Item}
    (h : set_answer p n c v = .ok q) : Evolves p q := by
  rw [set_answer] at h
  split at h
  · have hq : q = { p with answers := upd_ans p.answers n c v } :=
      (Except.ok.injEq _ _).mp h.symm
    subst hq
    refine ⟨rfl, rfl, List.Sublist.refl _, ?_, fun k => upd_ans_isSome _ _ _ _ _⟩
    intro it cc hsome
    rw [get_answer] at hsome ⊢
    rw [alookup_upd_ans]
    by_cases hit : it = n
    · rw [if_pos hit]
      subst hit
      cases hinner : alookup p.answers it with
      | none => rw [hinner] at hsome; simp at hsome
      | some inner =>
        rw [hinner] at hsome
        simp only [Option.map]
        rw [aupdate_alookup]
        by_cases hcc : cc = c
        · rw [if_pos hcc]
          rfl
        · rw [if_neg hcc]
          exact hsome
    · rw [if_neg hit]; exact hsome
  · exact Except.noConfusion h

theorem foldlM_evolves {α : Type} {f : Puzzle → α → Except Err Puzzle} :
    ∀ {l : List α} {p q : Puzzle},
      (∀ r x r', x ∈ l → f r x = .ok r' → Evolves r r') →
      l.foldlM f p = .ok q → Evolves p q := by
  intro l
  induction l with
  | nil =>
    intro p q _ h
    rw [List.foldlM_nil] at h
    exact pureE h ▸ evolves_refl p
  | cons x xs ih =>
    intro p q hf h
    rw [List.foldlM_cons] at h
    obtain ⟨p1, h1, h2⟩ := bindE h
    exact evolves_trans (hf p x p1 (List.mem_cons_self _ _) h1)
      (ih (fun r y r' hy hr => hf r y r' (List.mem_cons_of_mem _ hy) hr) h2)

theorem ite_evolves {c : Prop} [Decidable c] {r r' : Puzzle} {f g : Except Err Puzzle}
    (hf : f = .ok r' → Evolves r r') (hg : g = .ok r' → Evolves r r')
    (h : (if c then f else g) = .ok r') : Evolves r r' := by
  split at h
  · exact hf h
  · exact hg h

theorem pure_evolves {r r' : Puzzle} (h : (pure r : Except Err Puzzle) = .ok r') :
    Evolves r r' := pureE h ▸ evolves_refl r

theorem ite_mfd_evolves {c : Prop} [Decidable c] {r r' : Puzzle} {a b : Item}
    (h : (if c then mfd r a b else pure r) = .ok r') : Evolves r r' :=
  ite_evolves mfd_evolves pure_evolves h

/-! ## Every mutating operation satisfies `Evolves` -/

theorem mark_true_evolves {p q : Puzzle} {a b : Item} (h : mark_true p a b = .ok q) :
    Evolves p q := by
  unfold mark_true at h
  obtain ⟨t1, _, h⟩ := bindE h
  obtain ⟨t2, _, h⟩ := bindE h
  obtain ⟨its1, _, h⟩ := bindE h
  obtain ⟨its2, _, h⟩ := bindE h
  obtain ⟨q1, h1, h⟩ := bindE h
  obtain ⟨q2, h2, h⟩ := bindE h
  obtain ⟨q3, h3, h4⟩ := bindE h
  exact evolves_trans (foldlM_evolves (fun r x r' _ hr => mfd_evolves hr) h1)
    (evolves_trans (foldlM_evolves (fun r x r' _ hr => mfd_evolves hr) h2)
      (evolves_trans (set_answer_evolves h3) (set_answer_evolves h4)))

theorem iteE_evolves {c : Prop} [Decidable c] {r r' : Puzzle} {f g : Except Err Puzzle}
    (hf : f = .ok r' → Evolves r r') (hg : g = .ok r' → Evolves r r')
    (h : iteE c f g = .ok r') : Evolves r r' := by
  rw [iteE] at h
  exact ite_evolves hf hg h

theorem iteE_mfd_evolves {c : Prop} [Decidable c] {r r' : Puzzle} {a b : Item}
    (h : iteE c (mfd r a b) (pure r) = .ok r') : Evolves r r' :=
  iteE_evolves mfd_evolves pure_evolves h

theorem share_body_evolves {n1 n2 : Item} {t1 t2 : Cat} {r r' : Puzzle} {kv : Cat × List Item}
    (h : share_body n1 n2 t1 t2 r kv = .ok r') : Evolves r r' := by
  unfold share_body at h
  obtain ⟨uniq, _, h⟩ := bindE h
  refine foldlM_evolves (fun u v u' _ hu => ?_) h
  obtain ⟨u2, hu2, hu3⟩ := bindE hu
  exact evolves_trans (iteE_mfd_evolves hu2) (ite_mfd_evolves hu3)

theorem share_info_evolves {p q : Puzzle} {n1 n2 : Item} (h : share_info p n1 n2 = .ok q) :
    Evolves p q := by
  unfold share_info at h
  obtain ⟨t1, _, h⟩ := bindE h
  obtain ⟨t2, _, h⟩ := bindE h
  exact foldlM_evolves (fun r x r' _ hr => share_body_evolves hr) h

theorem reduce_step_evolves {p q : Puzzle} {x : Cat × Item × Cat}
    (h : reduce_step p x = .ok q) : Evolves p q := by
  unfold reduce_step at h
  obtain ⟨one, _, h⟩ := bindE h
  split at h
  · obtain ⟨ns, _, h⟩ := bindE h
    cases ns with
    | nil => exact Except.noConfusion h
    | cons n2 rest =>
      obtain ⟨its_t, _, h⟩ := bindE h
      obtain ⟨its_ot, _, h⟩ := bindE h
      split at h
      · split at h
        · obtain ⟨q1, h1, h2⟩ := bindE h
          exact evolves_trans (mark_true_evolves h1) (share_info_evolves h2)
        · exact Except.noConfusion h
      · exact Except.noConfusion h
  · exact (Except.ok.injEq _ _).mp h ▸ evolves_refl p

theorem reduce_graph_evolves {p q : Puzzle} (h : reduce_graph p = .ok q) : Evolves p q := by
  unfold reduce_graph at h
  exact foldlM_evolves (fun r x r' _ hr => reduce_step_evolves hr) h

theorem neither_nor_evolves {p q : Puzzle} {obj p1 p2 : Item}
    (h : neither_nor p obj p1 p2 = .ok q) : Evolves p q := by
  unfold neither_nor at h
  obtain ⟨q1, h1, h⟩ := bindE h
  obtain ⟨q2, h2, h3⟩ := bindE h
  exact evolves_trans (mfd_evolves h1) (evolves_trans (mfd_evolves h2) (mfd_evolves h3))

theorem ttp_evolves {p q : Puzzle} {obj pi : Item} {oc : Cat} {oi : Item}
    (h : ttp p obj pi oc oi = .ok q) : Evolves p q := by
  unfold ttp at h
  obtain ⟨tn, _, h⟩ := bindE h
  obtain ⟨l, _, h⟩ := bindE h
  cases l with
  | nil => exact pure_evolves h
  | cons w tail =>
    cases tail with
    | nil =>
      obtain ⟨its, _, h⟩ := bindE h
      exact foldlM_evolves (fun r x r' _ hr => mfd_evolves hr) h
    | cons y rest => exact pure_evolves h

theorem either_or_evolves {p q : Puzzle} {obj p1 p2 : Item}
    (h : either_or p obj p1 p2 = .ok q) : Evolves p q := by
  unfold either_or at h
  obtain ⟨obj_adj, _, h⟩ := bindE h
  obtain ⟨obj_type, _, h⟩ := bindE h
  obtain ⟨p1_adj, _, h⟩ := bindE h
  obtain ⟨p1_type, _, h⟩ := bindE h
  obtain ⟨p2_adj, _, h⟩ := bindE h
  obtain ⟨p2_type, _, h⟩ := bindE h
  obtain ⟨q0, h0, h⟩ := bindE h
  obtain ⟨objP1, _, h⟩ := bindE h
  obtain ⟨q1, h1, h⟩ := bindE h
  obtain ⟨objP2, _, h⟩ := bindE h
  obtain ⟨q2, h2, h⟩ := bindE h
  obtain ⟨q3, h3, h⟩ := bindE h
  obtain ⟨p1n, _, h⟩ := bindE h
  obtain ⟨q4, h4, h⟩ := bindE h
  obtain ⟨p2n, _, h⟩ := bindE h
  obtain ⟨q5, h5, h6⟩ := bindE h
  have e3 : Evolves q2 q3 := by
    refine iteE_evolves (fun hth => ?_) pure_evolves h3
    obtain ⟨r1, hr1, hr2⟩ := bindE hth
    exact evolves_trans (iteE_mfd_evolves hr1) (iteE_mfd_evolves hr2)
  have e6 : Evolves q5 q := by
    refine ite_evolves (fun hth => ?_) pure_evolves h6
    obtain ⟨q6, hq6, hq7⟩ := bindE hth
    exact evolves_trans (ttp_evolves hq6) (ttp_evolves hq7)
  exact evolves_trans (mfd_evolves h0)
    (evolves_trans (iteE_evolves mark_true_evolves pure_evolves h1)
      (evolves_trans (iteE_evolves mark_true_evolves pure_evolves h2)
        (evolves_trans e3
          (evolves_trans (iteE_evolves mark_true_evolves pure_evolves h4)
            (evolves_trans (iteE_evolves mark_true_evolves pure_evolves h5) e6)))))

theorem pstl_body_evolves {c d : Item} {r r' : Puzzle} {o : Item}
    (h : pstl_body c d r o = .ok r') : Evolves r r' := by
  unfold pstl_body at h
  obtain ⟨_, _, h⟩ := bindE h
  obtain ⟨nc, _, h⟩ := bindE h
  obtain ⟨q1, h1, h⟩ := bindE h
  obtain ⟨nd, _, h2⟩ := bindE h
  exact evolves_trans (iteE_mfd_evolves h1) (ite_mfd_evolves h2)

theorem pair_same_type_logic_evolves {p q : Puzzle} {x y : Item} {pt : Cat} {c d : Item}
    (h : pair_same_type_logic p x y pt c d = .ok q) : Evolves p q := by
  unfold pair_same_type_logic at h
  obtain ⟨its, _, h⟩ := bindE h
  exact foldlM_evolves (fun r z r' _ hr => pstl_body_evolves hr) h

theorem pairs_rule_evolves {p q : Puzzle} {a b c d : Item}
    (h : pairs_rule p a b c d = .ok q) : Evolves p q := by
  unfold pairs_rule at h
  obtain ⟨q1, h1, h⟩ := bindE h
  obtain ⟨q2, h2, h⟩ := bindE h
  obtain ⟨q3, h3, h⟩ := bindE h
  obtain ⟨q4, h4, h⟩ := bindE h
  obtain ⟨q5, h5, h⟩ := bindE h
  obtain ⟨q6, h6, h⟩ := bindE h
  obtain ⟨t1a, _, h⟩ := bindE h
  obtain ⟨t1b, _, h⟩ := bindE h
  obtain ⟨q7, h7, h⟩ := bindE h
  obtain ⟨t2c, _, h⟩ := bindE h
  obtain ⟨t2d, _, h8⟩ := bindE h
  exact evolves_trans (mfd_evolves h1)
    (evolves_trans (mfd_evolves h2)
      (evolves_trans (either_or_evolves h3)
        (evolves_trans (either_or_evolves h4)
          (evolves_trans (either_or_evolves h5)
            (evolves_trans (either_or_evolves h6)
              (evolves_trans (iteE_evolves pair_same_type_logic_evolves pure_evolves h7)
                (ite_evolves pair_same_type_logic_evolves pure_evolves h8)))))))

theorem mutually_exclusive_evolves {p q : Puzzle} {things : List Item}
    (h : mutually_exclusive p things = .ok q) : Evolves p q := by
  unfold mutually_exclusive at h
  exact foldlM_evolves (fun r x r' _ hr => mfd_evolves hr) h

theorem delta_body_evolves {lesser greater : Item} {delta : Int} {cat : Cat}
    {numeric : List Item} {r r' : Puzzle} {pv : Item}
    (h : delta_body lesser greater delta cat numeric r pv = .ok r') : Evolves r r' := by
  unfold delta_body at h
  obtain ⟨nl0, _, h⟩ := bindE h
  obtain ⟨_, _, h⟩ := bindE h
  obtain ⟨ng0, _, h⟩ := bindE h
  obtain ⟨_, _, h⟩ := bindE h
  obtain ⟨r1, h1, h⟩ := bindE h
  obtain ⟨ng1, _, h⟩ := bindE h
  obtain ⟨r2, h2, h⟩ := bindE h
  obtain ⟨nl2, _, h⟩ := bindE h
  obtain ⟨mnl, _, h⟩ := bindE h
  obtain ⟨r3, h3, h⟩ := bindE h
  obtain ⟨ng3, _, h⟩ := bindE h
  obtain ⟨mxg, _, h⟩ := bindE h
  obtain ⟨r4, h4, h5⟩ := bindE h
  have e5 : Evolves r4 r' := by
    refine ite_evolves (fun hth => ?_) pure_evolves h5
    obtain ⟨nl4, _, hth⟩ := bindE hth
    obtain ⟨r5, hr5, hth⟩ := bindE hth
    obtain ⟨ng5, _, hth2⟩ := bindE hth
    exact evolves_trans (iteE_mfd_evolves hr5) (ite_mfd_evolves hth2)
  exact evolves_trans (iteE_mfd_evolves h1)
    (evolves_trans (iteE_mfd_evolves h2)
      (evolves_trans (iteE_mfd_evolves h3) (evolves_trans (iteE_mfd_evolves h4) e5)))

theorem delta_comparison_evolves {p q : Puzzle} {lesser greater : Item} {delta : Int}
    {cat : Cat} (h : delta_comparison p lesser greater delta cat = .ok q) : Evolves p q := by
  unfold delta_comparison at h
  split at h
  · exact Except.noConfusion h
  · obtain ⟨q0, h0, h⟩ := bindE h
    obtain ⟨numeric, _, h⟩ := bindE h
    obtain ⟨mn, _, h⟩ := bindE h
    obtain ⟨mx, _, h⟩ := bindE h
    obtain ⟨q1, h1, h⟩ := bindE h
    obtain ⟨q2, h2, h3⟩ := bindE h
    exact evolves_trans (mfd_evolves h0)
      (evolves_trans (mfd_evolves h1)
        (evolves_trans (mfd_evolves h2)
          (foldlM_evolves (fun r x r' _ hr => delta_body_evolves hr) h3)))

theorem comparison_body_evolves {greater lesser : Item} {r r' : Puzzle} {o : Item}
    (h : comparison_body greater lesser r o = .ok r') : Evolves r r' := by
  unfold comparison_body at h
  obtain ⟨nl, _, h⟩ := bindE h
  obtain ⟨mnl, _, h⟩ := bindE h
  obtain ⟨r1, h1, h⟩ := bindE h
  obtain ⟨ng, _, h⟩ := bindE h
  obtain ⟨mxg, _, h2⟩ := bindE h
  exact evolves_trans (iteE_mfd_evolves h1) (ite_mfd_evolves h2)

theorem comparison_call_evolves {p q : Puzzle} {greater lesser : Item}
    (h : comparison_call p greater lesser = .ok q) : Evolves p q := by
  unfold comparison_call at h
  obtain ⟨q0, h0, h⟩ := bindE h
  obtain ⟨ordinals, _, h⟩ := bindE h
  obtain ⟨mn, _, h⟩ := bindE h
  obtain ⟨mx, _, h⟩ := bindE h
  obtain ⟨q1, h1, h⟩ := bindE h
  obtain ⟨q2, h2, h3⟩ := bindE h
  exact evolves_trans (mfd_evolves h0)
    (evolves_trans (mfd_evolves h1)
      (evolves_trans (mfd_evolves h2)
        (foldlM_evolves (fun r x r' _ hr => comparison_body_evolves hr) h3)))

theorem apply_op_evolves {p q : Puzzle} {op : Op} (h : apply_op p op = .ok q) :
    Evolves p q := by
  cases op with
  | opMarkFalse a b => exact mfd_evolves h
  | opMarkTrue a b => exact mark_true_evolves h
  | opNeitherNor obj p1 p2 => exact neither_nor_evolves h
  | opEitherOr obj p1 p2 => exact either_or_evolves h
  | opPairs a b c d => exact pairs_rule_evolves h
  | opMutEx l => exact mutually_exclusive_evolves h
  | opDelta l g dl c => exact delta_comparison_evolves h
  | opComparison g l => exact comparison_call_evolves h
  | opReduce => exact reduce_graph_evolves h

theorem apply_ops_evolves {p q : Puzzle} {ops : List Op} (h : apply_ops p ops = .ok q) :
    Evolves p q := by
  unfold apply_ops at h
  exact foldlM_evolves (fun r x r' _ hr => apply_op_evolves hr) h

/-! ## Engine-level claims -/

/-- C2: for every sequence of mutating operations (`mark_false`, `mark_true`,
any rule of the library, the `Comparison` rule, the structural reduce pass)
applied after construction, the edge count never increases — no operation
ever adds an edge (the edge list stays a sublist) — and an Answer Map entry,
once set to a definite item, is never reset to the unresolved marker. -/
theorem apply_ops_monotone (p : Puzzle) (ops : List Op) (q : Puzzle)
    (h : apply_ops p ops = .ok q) :
    edge_count q ≤ edge_count p ∧ q.edges.Sublist p.edges ∧ AnswerMono p q := by
  have e := apply_ops_evolves h
  exact ⟨evolves_edge_count e, e.2.2.1, e.2.2.2.1⟩

theorem exec_loop_rounds_le (rules : List Op) :
    ∀ (n : Nat) (p : Puzzle), edge_count p ≤ n →
      (exec_loop rules p).2 ≤ edge_count p + 1 := by
  intro n
  induction n with
  | zero =>
    intro p hp
    rw [exec_loop]
    cases hr : run_round rules p with
    | error e => show 1 ≤ edge_count p + 1; omega
    | ok q =>
      show (if h : edge_count q < edge_count p then
          let r := exec_loop rules q
          (r.1, r.2 + 1)
        else ((Except.ok q : Except Err Puzzle), 1)).2 ≤ edge_count p + 1
      rw [dif_neg (by omega : ¬edge_count q < edge_count p)]
      show 1 ≤ edge_count p + 1
      omega
  | succ n ih =>
    intro p hp
    rw [exec_loop]
    cases hr : run_round rules p with
    | error e => show 1 ≤ edge_count p + 1; omega
    | ok q =>
      show (if h : edge_count q < edge_count p then
          let r := exec_loop rules q
          (r.1, r.2 + 1)
        else ((Except.ok q : Except Err Puzzle), 1)).2 ≤ edge_count p + 1
      by_cases hlt : edge_count q < edge_count p
      · rw [dif_pos hlt]
        show (exec_loop rules q).2 + 1 ≤ edge_count p + 1
        have := ih q (by omega)
        omega
      · rw [dif_neg hlt]
        show 1 ≤ edge_count p + 1
        omega

/-- C3: for every finite puzzle and every finite list of registered rules,
`execute_rules` terminates (it is a total function, defined by well-founded
recursion on the edge count), and the number of rounds it performs is at
most the edge count at entry plus the one final round that detects no
change. -/
theorem execute_rules_rounds (rules : List Op) (p : Puzzle) :
    (execute_rules rules p).2 ≤ edge_count p + 1 := by
  rw [execute_rules]
  split
  · exact exec_loop_rounds_le rules (edge_count p) p (le_refl _)
  · show 0 ≤ edge_count p + 1
    omega

/-- C5: the structural forced-assignment pass fails with `Contradiction`
whenever it examines an item whose surviving-neighbor count in some other
category is zero: if the triple `(t, v, ot)` is reached with a state `q` in
which `v` has degree `0` towards `ot`, the whole pass returns the
`contradiction` error rather than continuing or returning. -/
theorem reduce_graph_raises (p q : Puzzle) (pre post : List (Cat × Item × Cat))
    (t : Cat) (v : Item) (ot : Cat) (counts : List (Cat × Nat))
    (hsplit : reduce_triples p = pre ++ (t, v, ot) :: post)
    (hpre : pre.foldlM reduce_step p = .ok q)
    (hcount : count_edges_per_type q v = .ok counts)
    (h0 : alookup counts ot = some 0) :
    reduce_graph p = .error .contradiction := by
  have h1 : has_one_edge q v ot = .error .contradiction := by
    rw [has_one_edge, hcount]
    show (match alookup counts ot with
          | none => Except.error Err.keyError
          | some c => if c = 0 then Except.error Err.contradiction else Except.ok (c == 1)) =
      Except.error Err.contradiction
    rw [h0]
    rfl
  have hstep : reduce_step q (t, v, ot) = .error .contradiction := by
    unfold reduce_step
    show (has_one_edge q v ot >>= _) = _
    rw [h1]
    rfl
  rw [reduce_graph, hsplit, List.foldlM_append, hpre]
  show ((t, v, ot) :: post).foldlM reduce_step q = Except.error Err.contradiction
  rw [List.foldlM_cons, hstep]
  rfl

/-- C7: `mark_false(a, b)` fails with `InvariantViolation` when either
argument is not a known item; otherwise it returns `true` together with the
graph from which the `a`–`b` edge has been filtered out when that edge was
present, and returns `false` leaving the graph unchanged when it was
absent.  The filtered graph indeed no longer has the edge. -/
theorem mark_false_spec (p : Puzzle) (a b : Item) :
    mark_false p a b =
      (if a ∈ all_items p ∧ b ∈ all_items p then
        if hasEdge p a b = true then
          .ok (true, { p with edges := p.edges.filter (fun e => !sameEdge e a b) })
        else .ok (false, p)
      else .error .invariantViolation)
    ∧ hasEdge { p with edges := p.edges.filter (fun e => !sameEdge e a b) } a b = false := by
  refine ⟨?_, hasEdge_filter_absent p a b⟩
  rw [mark_false]
  by_cases h1 : a ∈ all_items p
  · by_cases h2 : b ∈ all_items p
    · simp [h1, h2]
    · simp [h1, h2]
  · simp [h1]

/-! ## The closed form of `mark_true` -/

theorem ok_bind {α β : Type} (a : α) (f : α → Except Err β) :
    ((Except.ok a : Except Err α) >>= f) = f a := rfl

theorem category_mem {p : Puzzle} {a : Item} {t : Cat} (h : category p a = some t) :
    a ∈ all_items p := by
  rw [category] at h
  cases hf : p.items.find? (fun kv => kv.2.contains a) with
  | none => rw [hf] at h; simp at h
  | some kv =>
    have hmem := List.mem_of_find?_eq_some hf
    have hpred := List.find?_some hf
    have ha : a ∈ kv.2 := by simpa using hpred
    rw [all_items]
    exact List.mem_flatten.mpr ⟨kv.2, List.mem_map.mpr ⟨kv, hmem, rfl⟩, ha⟩

theorem category_alookup {p : Puzzle} {a : Item} {t : Cat} (h : category p a = some t) :
    ∃ l, alookup p.items t = some l := by
  rw [category] at h
  cases hf : p.items.find? (fun kv => kv.2.contains a) with
  | none => rw [hf] at h; simp at h
  | some kv =>
    rw [hf] at h
    simp only [Option.map] at h
    have ht : kv.1 = t := by injection h
    have hmem := List.mem_of_find?_eq_some hf
    have hs := alookup_isSome_of_mem hmem
    rw [ht] at hs
    exact Option.isSome_iff_exists.mp hs

theorem alookup_sub_flatten {p : Puzzle} {t : Cat} {l : List Item}
    (h : alookup p.items t = some l) : ∀ n ∈ l, n ∈ all_items p := by
  intro n hn
  exact List.mem_flatten.mpr ⟨l, List.mem_map.mpr ⟨(t, l), alookup_mem h, rfl⟩, hn⟩

theorem answers_complete_lookup {p : Puzzle} (hc : answers_complete p = true) {a : Item}
    (ha : a ∈ all_items p) : (alookup p.answers a).isSome = true := by
  rw [answers_complete, List.all_eq_true] at hc
  exact hc a ha

theorem set_answer_known {p : Puzzle} {n : Item}
    (hn : (alookup p.answers n).isSome = true) (c : Cat) (v : Item) :
    set_answer p n c v = .ok { p with answers := upd_ans p.answers n c v } := by
  rw [set_answer, if_pos hn]

theorem foldlM_mfd_fixed (b : Item) :
    ∀ (ns : List Item) (p : Puzzle), (∀ n ∈ ns, n ∈ all_items p) → b ∈ all_items p →
      ns.foldlM (fun q n => mfd q n b) p =
        .ok { p with edges := p.edges.filter (fun e => !ns.any (fun m => sameEdge e m b)) } := by
  intro ns
  induction ns with
  | nil =>
    intro p _ _
    rw [List.foldlM_nil]
    have hfix : p.edges.filter (fun e => !([] : List Item).any (fun m => sameEdge e m b))
        = p.edges := by
      apply List.filter_eq_self.mpr
      intro e _
      simp
    rw [hfix]
    rfl
  | cons n ns ih =>
    intro p hmem hb
    rw [List.foldlM_cons, mfd_known (hmem n (List.mem_cons_self _ _)) hb, ok_bind]
    have hmem' : ∀ m ∈ ns, m ∈ all_items { p with edges := p.edges.filter (fun e => !sameEdge e n b) } :=
      fun m hm => hmem m (List.mem_cons_of_mem _ hm)
    have hb' : b ∈ all_items { p with edges := p.edges.filter (fun e => !sameEdge e n b) } := hb
    rw [ih _ hmem' hb']
    have hff : (p.edges.filter (fun e => !sameEdge e n b)).filter
          (fun e => !ns.any (fun m => sameEdge e m b))
        = p.edges.filter (fun e => !(n :: ns).any (fun m => sameEdge e m b)) := by
      rw [List.filter_filter]
      apply List.filter_congr
      intro e _
      simp only [List.any_cons, Bool.not_or]
      exact Bool.and_comm _ _
    rw [hff]

theorem mark_true_closed (p : Puzzle) (a b : Item) (t1 t2 : Cat) (its1 its2 : List Item)
    (h1 : category p a = some t1) (h2 : category p b = some t2)
    (g1 : alookup p.items t1 = some its1) (g2 : alookup p.items t2 = some its2)
    (hc : answers_complete p = true) :
    mark_true p a b = .ok (mt_result p a b t1 t2 its1 its2) := by
  have ha : a ∈ all_items p := category_mem h1
  have hb : b ∈ all_items p := category_mem h2
  have hga : getCat p a = .ok t1 := by rw [getCat, h1]
  have hgb : getCat p b = .ok t2 := by rw [getCat, h2]
  have hia : getItems p t1 = .ok its1 := by rw [getItems, g1]
  have hib : getItems p t2 = .ok its2 := by rw [getItems, g2]
  have hsa : (alookup p.answers a).isSome = true := answers_complete_lookup hc ha
  have hsb : (alookup p.answers b).isSome = true := answers_complete_lookup hc hb
  rw [mark_true, hga, ok_bind, hgb, ok_bind, hia, ok_bind, hib, ok_bind]
  show (do
    let q1 ← List.foldlM (fun q n => mfd q n b) p (its1.filter (fun x => x ≠ a))
    let q2 ← List.foldlM (fun q n => mfd q n a) q1 (its2.filter (fun x => x ≠ b))
    let q3 ← set_answer q2 a t2 b
    set_answer q3 b t1 a) = Except.ok (mt_result p a b t1 t2 its1 its2)
  rw [foldlM_mfd_fixed b (its1.filter (fun x => x ≠ a)) p
    (fun m hm => alookup_sub_flatten g1 m (List.mem_filter.mp hm).1) hb, ok_bind]
  set R1 : Puzzle := { p with edges := p.edges.filter (fun e => !(its1.filter (fun x => x ≠ a)).any (fun m => sameEdge e m b)) } with hR1
  have hm2 : ∀ m ∈ its2.filter (fun x => x ≠ b), m ∈ all_items R1 :=
    fun m hm => alookup_sub_flatten g2 m (List.mem_filter.mp hm).1
  have ha2 : a ∈ all_items R1 := ha
  rw [foldlM_mfd_fixed a (its2.filter (fun x => x ≠ b)) R1 hm2 ha2, ok_bind]
  set R2 : Puzzle := { R1 with edges := R1.edges.filter (fun e => !(its2.filter (fun x => x ≠ b)).any (fun m => sameEdge e m a)) } with hR2
  have hsa2 : (alookup R2.answers a).isSome = true := hsa
  rw [set_answer_known hsa2 t2 b, ok_bind]
  have hsb2 : (alookup (upd_ans R2.answers a t2 b) b).isSome = true := by
    rw [upd_ans_isSome]
    exact hsb
  rw [set_answer_known (p := { R2 with answers := upd_ans R2.answers a t2 b }) hsb2 t1 a]
  rfl

/-! ## `mark_true`: soundness, frame and idempotence -/

theorem category_ne {p : Puzzle} {a b : Item} {t1 t2 : Cat} (h1 : category p a = some t1)
    (h2 : category p b = some t2) (hne : t1 ≠ t2) : a ≠ b := by
  intro he
  subst he
  rw [h1] at h2
  injection h2 with h3
  exact hne h3

theorem sameEdge_resolve {e : Item × Item} {a b m w : Item}
    (h1 : sameEdge e a b = true) (h2 : sameEdge e m w = true) :
    (m = a ∧ w = b) ∨ (m = b ∧ w = a) := by
  obtain ⟨x, y⟩ := e
  rw [sameEdge] at h1 h2
  simp at h1 h2
  rcases h1 with ⟨rfl, rfl⟩ | ⟨rfl, rfl⟩ <;>
    rcases h2 with ⟨rfl, rfl⟩ | ⟨rfl, rfl⟩ <;> simp

/-- C1: after `mark_true(a, b)` on distinct-category known items, every
competitor `n ≠ a` of `a`'s category has lost its edge to `b`, every
competitor `n ≠ b` of `b`'s category has lost its edge to `a`, and both
Answer Map entries are set (`a`'s entry for `b`'s category is `b` and vice
versa). -/
theorem mark_true_sound (p q : Puzzle) (a b : Item) (t1 t2 : Cat)
    (h1 : category p a = some t1) (h2 : category p b = some t2) (hne : t1 ≠ t2)
    (hc : answers_complete p = true) (hq : mark_true p a b = .ok q) :
    (∀ n ∈ (alookup p.items t1).getD [], n ≠ a → hasEdge q n b = false) ∧
    (∀ n ∈ (alookup p.items t2).getD [], n ≠ b → hasEdge q n a = false) ∧
    get_answer q a t2 = some b ∧ get_answer q b t1 = some a := by
  obtain ⟨its1, g1⟩ := category_alookup h1
  obtain ⟨its2, g2⟩ := category_alookup h2
  have hab : a ≠ b := category_ne h1 h2 hne
  have hcl := mark_true_closed p a b t1 t2 its1 its2 h1 h2 g1 g2 hc
  rw [hq] at hcl
  injection hcl with hqe
  subst hqe
  refine ⟨?_, ?_, ?_, ?_⟩
  · rw [g1]
    intro n hn hna
    rw [mt_result, hasEdge]
    rw [List.any_eq_false]
    intro e he hse
    have he1 := (List.mem_filter.mp (List.mem_filter.mp he).1).2
    have hnf : n ∈ its1.filter (fun x => x ≠ a) :=
      List.mem_filter.mpr ⟨hn, by simp [hna]⟩
    have hany : (its1.filter (fun x => x ≠ a)).any (fun m => sameEdge e m b) = true :=
      List.any_eq_true.mpr ⟨n, hnf, hse⟩
    rw [hany] at he1
    simp at he1
  · rw [g2]
    intro n hn hnb
    rw [mt_result, hasEdge]
    rw [List.any_eq_false]
    intro e he hse
    have he2 := (List.mem_filter.mp he).2
    have hnf : n ∈ its2.filter (fun x => x ≠ b) :=
      List.mem_filter.mpr ⟨hn, by simp [hnb]⟩
    have hany : (its2.filter (fun x => x ≠ b)).any (fun m => sameEdge e m a) = true :=
      List.any_eq_true.mpr ⟨n, hnf, hse⟩
    rw [hany] at he2
    simp at he2
  · obtain ⟨inner, hinner⟩ :=
      Option.isSome_iff_exists.mp (answers_complete_lookup hc (category_mem h1))
    rw [get_answer]
    show (match alookup (upd_ans (upd_ans p.answers a t2 b) b t1 a) a with
          | none => none
          | some inner => match alookup inner t2 with
            | none => none
            | some v => v) = some b
    rw [alookup_upd_ans, if_neg hab, alookup_upd_ans, if_pos rfl, hinner]
    simp only [Option.map]
    rw [aupdate_alookup, if_pos rfl]
  · obtain ⟨inner, hinner⟩ :=
      Option.isSome_iff_exists.mp (answers_complete_lookup hc (category_mem h2))
    rw [get_answer]
    show (match alookup (upd_ans (upd_ans p.answers a t2 b) b t1 a) b with
          | none => none
          | some inner => match alookup inner t1 with
            | none => none
            | some v => v) = some a
    rw [alookup_upd_ans, if_pos rfl, alookup_upd_ans,
      if_neg (fun hc2 => hab hc2.symm), hinner]
    simp only [Option.map]
    rw [aupdate_alookup, if_pos rfl]

/-- C10: `mark_true(a, b)` neither removes nor adds the `a`–`b` edge itself:
on distinct-category known items the call always completes, and the
presence bit of the `a`–`b` edge in the result equals the one before the
call — in particular the call completes normally even when that edge has
already been removed. -/
theorem mark_true_frame (p : Puzzle) (a b : Item) (t1 t2 : Cat)
    (h1 : category p a = some t1) (h2 : category p b = some t2) (hne : t1 ≠ t2)
    (hc : answers_complete p = true) :
    (mark_true p a b).map (fun q => hasEdge q a b) = .ok (hasEdge p a b) := by
  obtain ⟨its1, g1⟩ := category_alookup h1
  obtain ⟨its2, g2⟩ := category_alookup h2
  have hab : a ≠ b := category_ne h1 h2 hne
  rw [mark_true_closed p a b t1 t2 its1 its2 h1 h2 g1 g2 hc]
  show Except.ok (hasEdge (mt_result p a b t1 t2 its1 its2) a b) = Except.ok (hasEdge p a b)
  have hEq : hasEdge (mt_result p a b t1 t2 its1 its2) a b = hasEdge p a b := by
    cases hpe : hasEdge p a b with
    | false =>
      rw [hasEdge, List.any_eq_false] at hpe
      rw [mt_result, hasEdge, List.any_eq_false]
      intro e he
      exact hpe e (List.mem_filter.mp (List.mem_filter.mp he).1).1
    | true =>
      rw [hasEdge, List.any_eq_true] at hpe
      obtain ⟨e, he, hse⟩ := hpe
      rw [mt_result, hasEdge, List.any_eq_true]
      refine ⟨e, List.mem_filter.mpr ⟨List.mem_filter.mpr ⟨he, ?_⟩, ?_⟩, hse⟩
      · rw [Bool.not_eq_true', List.any_eq_false]
        intro m hm hsm
        have hmne := (List.mem_filter.mp hm).2
        simp at hmne
        rcases sameEdge_resolve hse hsm with ⟨hma, _⟩ | ⟨_, hba⟩
        · exact hmne hma
        · exact hab hba.symm
      · rw [Bool.not_eq_true', List.any_eq_false]
        intro m hm hsm
        have hmne := (List.mem_filter.mp hm).2
        simp at hmne
        rcases sameEdge_resolve hse hsm with ⟨_, hab2⟩ | ⟨hmb, _⟩
        · exact hab hab2
        · exact hmne hmb
  rw [hEq]

theorem upd_entry_pointwise {a b : Item} {t1 t2 : Cat} (hab : a ≠ b)
    (kv : Item × List (Cat × Option Item)) :
    upd_entry b t1 a (upd_entry a t2 b (upd_entry b t1 a (upd_entry a t2 b kv))) =
      upd_entry b t1 a (upd_entry a t2 b kv) := by
  obtain ⟨k, inner⟩ := kv
  by_cases hk : k = a
  · simp [upd_entry, hk, hab, aupdate_aupdate]
  · by_cases hk2 : k = b
    · simp [upd_entry, hk, hk2, Ne.symm hab, aupdate_aupdate]
    · simp [upd_entry, hk, hk2]

/-- C9: `mark_true` is idempotent: once `mark_true(a, b)` has produced the
state `q`, running `mark_true(a, b)` again returns exactly `q` — no further
edge is removed and the Answer Map is unchanged. -/
theorem mark_true_idem (p q : Puzzle) (a b : Item) (t1 t2 : Cat)
    (h1 : category p a = some t1) (h2 : category p b = some t2) (hne : t1 ≠ t2)
    (hc : answers_complete p = true) (hq : mark_true p a b = .ok q) :
    mark_true q a b = .ok q := by
  obtain ⟨its1, g1⟩ := category_alookup h1
  obtain ⟨its2, g2⟩ := category_alookup h2
  have hab : a ≠ b := category_ne h1 h2 hne
  have hcl := mark_true_closed p a b t1 t2 its1 its2 h1 h2 g1 g2 hc
  rw [hq] at hcl
  injection hcl with hqe
  subst hqe
  have h1' : category (mt_result p a b t1 t2 its1 its2) a = some t1 := h1
  have h2' : category (mt_result p a b t1 t2 its1 its2) b = some t2 := h2
  have g1' : alookup (mt_result p a b t1 t2 its1 its2).items t1 = some its1 := g1
  have g2' : alookup (mt_result p a b t1 t2 its1 its2).items t2 = some its2 := g2
  have hc' : answers_complete (mt_result p a b t1 t2 its1 its2) = true := by
    rw [answers_complete, List.all_eq_true]
    intro it hit
    show (alookup (upd_ans (upd_ans p.answers a t2 b) b t1 a) it).isSome = true
    rw [upd_ans_isSome, upd_ans_isSome]
    exact answers_complete_lookup hc hit
  rw [mark_true_closed _ a b t1 t2 its1 its2 h1' h2' g1' g2' hc']
  have hE1 : (mt_result p a b t1 t2 its1 its2).edges.filter
      (fun e => !(its1.filter (fun x => x ≠ a)).any (fun m => sameEdge e m b))
      = (mt_result p a b t1 t2 its1 its2).edges := by
    apply List.filter_eq_self.mpr
    intro e he
    exact (List.mem_filter.mp (List.mem_filter.mp he).1).2
  have hE2 : (mt_result p a b t1 t2 its1 its2).edges.filter
      (fun e => !(its2.filter (fun x => x ≠ b)).any (fun m => sameEdge e m a))
      = (mt_result p a b t1 t2 its1 its2).edges := by
    apply List.filter_eq_self.mpr
    intro e he
    exact (List.mem_filter.mp he).2
  have hA : upd_ans (upd_ans (mt_result p a b t1 t2 its1 its2).answers a t2 b) b t1 a
      = (mt_result p a b t1 t2 its1 its2).answers := by
    show upd_ans (upd_ans (upd_ans (upd_ans p.answers a t2 b) b t1 a) a t2 b) b t1 a
      = upd_ans (upd_ans p.answers a t2 b) b t1 a
    simp only [upd_ans, List.map_map]
    apply List.map_congr_left
    intro kv _
    exact upd_entry_pointwise hab kv
  show Except.ok { mt_result p a b t1 t2 its1 its2 with
      edges := ((mt_result p a b t1 t2 its1 its2).edges.filter
        (fun e => !(its1.filter (fun x => x ≠ a)).any (fun m => sameEdge e m b))).filter
        (fun e => !(its2.filter (fun x => x ≠ b)).any (fun m => sameEdge e m a))
      answers := upd_ans (upd_ans (mt_result p a b t1 t2 its1 its2).answers a t2 b) b t1 a }
    = Except.ok (mt_result p a b t1 t2 its1 its2)
  rw [hE1, hE2, hA]

/-! ## The shape of the constructed graph -/

theorem sameEdge_congr {e x : Item × Item} {a b : Item} (h1 : sameEdge e x.1 x.2 = true)
    (h2 : sameEdge x a b = true) : sameEdge e a b = true := by
  obtain ⟨e1, e2⟩ := e
  obtain ⟨x1, x2⟩ := x
  rw [sameEdge] at h1 h2 ⊢
  simp at h1 h2 ⊢
  rcases h1 with ⟨rfl, rfl⟩ | ⟨rfl, rfl⟩ <;>
    rcases h2 with ⟨rfl, rfl⟩ | ⟨rfl, rfl⟩ <;> simp

theorem mem_mem_order {α : Type} {x y : α} {l : List α} (hx : x ∈ l) (hy : y ∈ l) :
    x = y ∨ [x, y].Sublist l ∨ [y, x].Sublist l := by
  induction l with
  | nil => simp at hx
  | cons a tl ih =>
    rcases List.mem_cons.mp hx with rfl | hx2
    · rcases List.mem_cons.mp hy with rfl | hy2
      · exact Or.inl rfl
      · exact Or.inr (Or.inl (List.cons_sublist_cons.mpr (List.singleton_sublist.mpr hy2)))
    · rcases List.mem_cons.mp hy with rfl | hy2
      · exact Or.inr (Or.inr (List.cons_sublist_cons.mpr (List.singleton_sublist.mpr hx2)))
      · rcases ih hx2 hy2 with h | h | h
        · exact Or.inl h
        · exact Or.inr (Or.inl (h.cons a))
        · exact Or.inr (Or.inr (h.cons a))

theorem ordered_pairs_mem {pr : Item × Item} {lists : List (List Item)} :
    pr ∈ ordered_pairs lists ↔
      ∃ l1 l2, [l1, l2].Sublist lists ∧ pr.1 ∈ l1 ∧ pr.2 ∈ l2 := by
  induction lists with
  | nil =>
    rw [ordered_pairs]
    simp [List.sublist_nil]
  | cons l rest ih =>
    rw [ordered_pairs]
    constructor
    · intro h
      rcases List.mem_append.mp h with h1 | h2
      · obtain ⟨l2, hl2, hpr⟩ := List.mem_flatMap.mp h1
        obtain ⟨n1, hn1, hpr2⟩ := List.mem_flatMap.mp hpr
        obtain ⟨n2, hn2, hpr3⟩ := List.mem_map.mp hpr2
        subst hpr3
        exact ⟨l, l2, List.cons_sublist_cons.mpr (List.singleton_sublist.mpr hl2), hn1, hn2⟩
      · obtain ⟨l1, l2, hs, h1, h2⟩ := ih.mp h2
        exact ⟨l1, l2, hs.cons l, h1, h2⟩
    · rintro ⟨l1, l2, hs, h1, h2⟩
      rcases List.sublist_cons_iff.mp hs with hs2 | ⟨r, hr, hrs⟩
      · exact List.mem_append.mpr (Or.inr (ih.mpr ⟨l1, l2, hs2, h1, h2⟩))
      · injection hr with hl1 hrest
        subst hl1
        apply List.mem_append.mpr
        left
        apply List.mem_flatMap.mpr
        refine ⟨l2, List.singleton_sublist.mp (hrest ▸ hrs), ?_⟩
        apply List.mem_flatMap.mpr
        exact ⟨pr.1, h1, List.mem_map.mpr ⟨pr.2, h2, rfl⟩⟩

theorem add_edge_foldl_any (a b : Item) :
    ∀ (prs : List (Item × Item)) (es : List (Item × Item)),
      ((prs.foldl (fun es2 pr => add_edge_l es2 pr.1 pr.2) es).any
          (fun e => sameEdge e a b) = true) ↔
        (es.any (fun e => sameEdge e a b) = true ∨ ∃ pr ∈ prs, sameEdge pr a b = true) := by
  intro prs
  induction prs with
  | nil =>
    intro es
    simp [List.foldl_nil]
  | cons x xs ih =>
    intro es
    rw [List.foldl_cons, ih]
    have hadd : (add_edge_l es x.1 x.2).any (fun e => sameEdge e a b) = true ↔
        (es.any (fun e => sameEdge e a b) = true ∨ sameEdge x a b = true) := by
      rw [add_edge_l]
      split
      · rename_i hpres
        constructor
        · exact Or.inl
        · rintro (h | h)
          · exact h
          · obtain ⟨e, he, hse⟩ := List.any_eq_true.mp hpres
            exact List.any_eq_true.mpr ⟨e, he, sameEdge_congr hse h⟩
      · rw [List.any_append]
        simp
    rw [hadd]
    simp only [List.mem_cons, exists_eq_or_imp]
    tauto

theorem init_edges_hasEdge {lists : List (List Item)} {a b : Item} :
    (init_edges lists).any (fun e => sameEdge e a b) = true ↔
      ∃ pr ∈ ordered_pairs lists, sameEdge pr a b = true := by
  rw [init_edges, add_edge_foldl_any]
  simp

theorem sublist_flatten_pair {l1 l2 : List Item} {lists : List (List Item)}
    (h : [l1, l2].Sublist lists) : (l1 ++ l2).Sublist lists.flatten := by
  induction lists with
  | nil => simp at h
  | cons l rest ih =>
    rcases List.sublist_cons_iff.mp h with h2 | ⟨r, hr, hrs⟩
    · rw [List.flatten_cons]
      exact (ih h2).trans (List.sublist_append_right _ _)
    · injection hr with h1 h2'
      subst h1
      rw [List.flatten_cons]
      exact List.Sublist.append_left
        (List.sublist_flatten_of_mem (List.singleton_sublist.mp (h2' ▸ hrs))) l1

theorem pair_disjoint {lists : List (List Item)} {l1 l2 : List Item}
    (hnd : lists.flatten.Nodup) (hs : [l1, l2].Sublist lists) {x : Item}
    (h1 : x ∈ l1) (h2 : x ∈ l2) : False := by
  have hnd2 := (sublist_flatten_pair hs).nodup hnd
  rw [List.nodup_append] at hnd2
  exact hnd2.2.2 h1 h2

/-- C8 counterexample: construction does not reject duplicate item
identifiers (`1` occurs twice in category `0`), nor empty categories (all
sizes are `0`, which passes the one-common-size check). -/
theorem construct_accepts_degenerate :
    (construct [(0, [1, 1]), (1, [2, 3])] 0).isOk = true ∧
      (construct [(0, []), (1, [])] 0).isOk = true := by
  constructor <;> rfl

/-- C8 amended: construction fails with `ConfigurationError` when the
categories do not all share one common size (also when the category map is
empty) or when the named ordinal category is not one of the keys; it
succeeds otherwise — duplicate item identifiers and empty categories are
NOT rejected — and on success (for inputs whose items are globally
distinct) the graph is the complete inter-category graph with no
intra-category edges. -/
theorem construct_spec (categories : List (Cat × List Item)) (oc : Cat)
    (hflat : ((categories.map Prod.snd).flatten).Nodup) :
    (((categories.map (fun kv => kv.2.length)).dedup).length ≠ 1 →
      construct categories oc = .error .configurationError)
    ∧ (oc ∉ categories.map Prod.fst →
      construct categories oc = .error .configurationError)
    ∧ ((((categories.map (fun kv => kv.2.length)).dedup).length = 1 ∧
        oc ∈ categories.map Prod.fst) → (construct categories oc).isOk = true)
    ∧ (∀ q, construct categories oc = .ok q →
        q.items = categories
        ∧ (∀ c1 ∈ categories, ∀ c2 ∈ categories, c1.1 ≠ c2.1 →
            ∀ a ∈ c1.2, ∀ b ∈ c2.2, hasEdge q a b = true)
        ∧ (∀ c ∈ categories, ∀ a ∈ c.2, ∀ b ∈ c.2, hasEdge q a b = false)) := by
  refine ⟨?_, ?_, ?_, ?_⟩
  · intro hlen
    rw [construct, if_neg hlen]
  · intro hoc
    rw [construct]
    by_cases hlen : ((categories.map (fun kv => kv.2.length)).dedup).length = 1
    · rw [if_pos hlen, if_neg hoc]
    · rw [if_neg hlen]
  · rintro ⟨hlen, hoc⟩
    rw [construct, if_pos hlen, if_pos hoc]
    rfl
  · intro q hq
    rw [construct] at hq
    split at hq
    · split at hq
      · injection hq with hq2
        subst hq2
        refine ⟨rfl, ?_, ?_⟩
        · intro c1 hc1 c2 hc2 hkne a ha b hb
          have hne : c1 ≠ c2 := fun he => hkne (he ▸ rfl)
          rw [hasEdge]
          show (init_edges (categories.map Prod.snd)).any (fun e => sameEdge e a b) = true
          rw [init_edges_hasEdge]
          rcases mem_mem_order hc1 hc2 with he | hor | hor
          · exact absurd he hne
          · refine ⟨(a, b), ordered_pairs_mem.mpr ⟨c1.2, c2.2, ?_, ha, hb⟩, by simp [sameEdge]⟩
            have := List.Sublist.map Prod.snd hor
            simpa using this
          · refine ⟨(b, a), ordered_pairs_mem.mpr ⟨c2.2, c1.2, ?_, hb, ha⟩, by simp [sameEdge]⟩
            have := List.Sublist.map Prod.snd hor
            simpa using this
        · intro c hc a ha b hb
          apply Bool.eq_false_iff.mpr
          intro hh
          have hh2 : (init_edges (categories.map Prod.snd)).any
              (fun e => sameEdge e a b) = true := hh
          obtain ⟨pr, hpr, hse⟩ := init_edges_hasEdge.mp hh2
          obtain ⟨l1, l2, hs, h1, h2⟩ := ordered_pairs_mem.mp hpr
          have hcm : c.2 ∈ categories.map Prod.snd := List.mem_map.mpr ⟨c, hc, rfl⟩
          have hl1m : l1 ∈ categories.map Prod.snd := hs.subset (by simp)
          have main : ∀ u v : Item, u ∈ c.2 → v ∈ c.2 → u ∈ l1 → v ∈ l2 → False := by
            intro u v hu hv hu1 hv2
            rcases mem_mem_order hcm hl1m with he | hor | hor
            · exact pair_disjoint hflat hs (he ▸ hv) hv2
            · exact pair_disjoint hflat hor hu hu1
            · exact pair_disjoint hflat hor hu1 hu
          have hself : sameEdge pr pr.1 pr.2 = true := by
            obtain ⟨x, y⟩ := pr
            simp [sameEdge]
          rcases sameEdge_resolve hse hself with ⟨h1a, h2b⟩ | ⟨h1b, h2a⟩
          · exact main a b ha hb (h1a ▸ h1) (h2b ▸ h2)
          · exact main b a hb ha (h1b ▸ h1) (h2a ▸ h2)
      · exact Except.noConfusion hq
    · exact Except.noConfusion hq

/-- C6 counterexample: on the 3-by-3 puzzle `P33`, `delta_comparison` with
`delta = 0` is accepted (the source asserts only `delta >= 0`) and does
perform directional eliminations: afterwards the minimum ordinal `1` is no
longer possible for `greater = 12` and the maximum ordinal `3` is no
longer possible for `lesser = 11`. -/
theorem delta_zero_directional :
    ((construct C33 0).bind (fun p0 =>
      (delta_comparison p0 11 12 0 0).map (fun q => (hasEdge q 12 1, hasEdge q 11 3))))
      = .ok (false, false) := by
  rfl

/-- C6 amended: `delta_comparison` accepts `delta = 0` and still performs
its unconditional directional eliminations: besides asserting
`lesser ≠ greater`, a successful call always leaves the minimum ordinal
value excluded for `greater` and the maximum ordinal value excluded for
`lesser`; only the two `delta > 0`-guarded eliminations are skipped. -/
theorem delta_comparison_zero_bounds (p q : Puzzle) (lesser greater : Item) (cat : Cat)
    (numeric : List Item) (mn mx : Item)
    (hn : alookup p.items cat = some numeric)
    (hmn : listMin numeric = .ok mn) (hmx : listMax numeric = .ok mx)
    (h : delta_comparison p lesser greater 0 cat = .ok q) :
    hasEdge q greater mn = false ∧ hasEdge q lesser mx = false := by
  unfold delta_comparison at h
  split at h
  · exact Except.noConfusion h
  · obtain ⟨q0, h0, h⟩ := bindE h
    obtain ⟨numeric', hnum, h⟩ := bindE h
    have hq0 := mfd_ok_eq h0
    subst hq0
    have h_itm : alookup ({ p with edges := p.edges.filter (fun e => !sameEdge e lesser greater) } : Puzzle).items cat = some numeric := hn
    rw [getItems, h_itm] at hnum
    have hnum2 : (Except.ok numeric : Except Err (List Item)) = Except.ok numeric' := hnum
    injection hnum2 with hnum3
    subst hnum3
    obtain ⟨mn', hmn', h⟩ := bindE h
    rw [hmn] at hmn'
    injection hmn' with hmn2
    subst hmn2
    obtain ⟨mx', hmx', h⟩ := bindE h
    rw [hmx] at hmx'
    injection hmx' with hmx2
    subst hmx2
    obtain ⟨q1, hq1, h⟩ := bindE h
    obtain ⟨q2, hq2, h3⟩ := bindE h
    have a1 : hasEdge q2 greater mn = false :=
      evolves_absent (mfd_evolves hq2) (mfd_ok_absent hq1)
    have a2 : hasEdge q2 lesser mx = false := mfd_ok_absent hq2
    have eloop : Evolves q2 q :=
      foldlM_evolves (fun r x r' _ hr => delta_body_evolves hr) h3
    exact ⟨evolves_absent eloop a1, evolves_absent eloop a2⟩

/-- C4: evaluation of `either_or` at a state exhibiting the dead branch.
On the 2-by-2-by-2 puzzle with categories `0 = {1, 2}`, `1 = {11, 12}`,
`2 = {21, 22}`, after removing the edge between `1` and `22`, item `1`'s
surviving neighbor set in category `2` is exactly `[21]`; the claim (and
the comment at line 331 of the source) then demand that
`either_or(1, (11, 21))` remove the edge between `1` and `11`, but the
guard at line 333 tests `p1 ∈ obj_p2_type_neighbors` — which is always
false across categories — so the edge between `1` and `11` survives. -/
theorem either_or_missing_elim :
    ((construct [(0, [1, 2]), (1, [11, 12]), (2, [21, 22])] 0).bind (fun p0 =>
      (mfd p0 1 22).bind (fun p1 =>
        (neighbors p1 1 2).bind (fun ns =>
          (either_or p1 1 11 21).map (fun q => (ns, hasEdge q 1 11, hasEdge q 1 21))))))
      = .ok ([21], true, true) := by
  rfl

/-! ## Witnesses at concrete puzzles -/

/-- Witness for C1 at the concrete puzzle `P22`: `mark_true 1 11` yields
`Q22`, whose competitor edges are gone and whose Answer Map entries are
set. -/
theorem mark_true_sound_witness :
    (∀ n ∈ (alookup P22.items 0).getD [], n ≠ 1 → hasEdge Q22 n 11 = false) ∧
    (∀ n ∈ (alookup P22.items 1).getD [], n ≠ 11 → hasEdge Q22 n 1 = false) ∧
    get_answer Q22 1 1 = some 11 ∧ get_answer Q22 11 0 = some 1 :=
  mark_true_sound P22 Q22 1 11 0 1 (by rfl) (by rfl) (by decide) (by rfl) (by rfl)

/-- Witness for C2: running `mark_true 1 11` and then the structural pass
on `P22` shrinks the edge list and keeps every set Answer Map entry. -/
theorem apply_ops_monotone_witness :
    edge_count QW ≤ edge_count P22 ∧ QW.edges.Sublist P22.edges ∧ AnswerMono P22 QW :=
  apply_ops_monotone P22 [Op.opMarkTrue 1 11, Op.opReduce] QW (by rfl)

/-- Witness for C5: on the contradictory state `PC` (item `1` has no
surviving category-`1` neighbor) the structural pass raises
`Contradiction`. -/
theorem reduce_graph_raises_witness :
    reduce_graph PC = .error .contradiction :=
  reduce_graph_raises PC PC [] [(0, 2, 1), (1, 11, 0), (1, 12, 0)] 0 1 1 [(1, 0)]
    (by rfl) (by rfl) (by rfl) (by rfl)

/-- Witness for C6 (amended) at `P33`: the successful `delta = 0` call
leaves the minimum ordinal excluded for `greater = 12` and the maximum
ordinal excluded for `lesser = 11`. -/
theorem delta_comparison_zero_bounds_witness :
    hasEdge Q33 12 1 = false ∧ hasEdge Q33 11 3 = false :=
  delta_comparison_zero_bounds P33 Q33 11 12 0 [1, 2, 3] 1 3
    (by rfl) (by rfl) (by rfl) (by rfl)

/-- Witness for C8 (amended) at the well-formed category table `C22`. -/
theorem construct_spec_witness :
    ((((C22.map (fun kv => kv.2.length)).dedup).length ≠ 1 →
      construct C22 0 = .error .configurationError)
    ∧ ((0 : Cat) ∉ C22.map Prod.fst →
      construct C22 0 = .error .configurationError)
    ∧ (((((C22.map (fun kv => kv.2.length)).dedup).length = 1 ∧
        (0 : Cat) ∈ C22.map Prod.fst)) → (construct C22 0).isOk = true)
    ∧ (∀ q, construct C22 0 = .ok q →
        q.items = C22
        ∧ (∀ c1 ∈ C22, ∀ c2 ∈ C22, c1.1 ≠ c2.1 →
            ∀ a ∈ c1.2, ∀ b ∈ c2.2, hasEdge q a b = true)
        ∧ (∀ c ∈ C22, ∀ a ∈ c.2, ∀ b ∈ c.2, hasEdge q a b = false))) :=
  construct_spec C22 0 (by decide)

/-- Witness for C9: running `mark_true 1 11` a second time on `Q22` returns
`Q22` unchanged. -/
theorem mark_true_idem_witness : mark_true Q22 1 11 = .ok Q22 :=
  mark_true_idem P22 Q22 1 11 0 1 (by rfl) (by rfl) (by decide) (by rfl) (by rfl)

/-- Witness for C10 at `P22e`, where the edge between `1` and `11` has
already been removed: `mark_true 1 11` still completes and reports the
same (absent) presence bit for that edge. -/
theorem mark_true_frame_witness :
    (mark_true P22e 1 11).map (fun q => hasEdge q 1 11) = .ok (hasEdge P22e 1 11) :=
  mark_true_frame P22e 1 11 0 1 (by rfl) (by rfl) (by decide) (by rfl)

end LogicPuzzleModel
